import Mathlib

/-!
Verification of the smithay-egui adapter (src/src/lib.rs): the process-wide
identity registry, the per-surface adapter state with its pending event
queue, the frame producer `run`, and the render-element integration.

Machine integers are modelled as `Nat`/`Int` with explicit reduction
modulo `2 ^ 64` where the Rust `usize` arithmetic can wrap (release-build
wrapping semantics). The floating-point coordinate conversions of `run`
are modelled over `ℚ` with a round-half-away-from-zero function matching
`f64::round`.
-/

namespace SmithayEgui

/-- The modulus of the 64-bit `usize` type. -/
def usizeW : Nat := 2 ^ 64

/-- `usize::MAX`. -/
def usizeMax : Nat := usizeW - 1

/-- Bitwise NOT on a 64-bit `usize` value (Rust unary `!` on integers). -/
def usizeNot (n : Nat) : Nat := usizeMax - n % usizeW

/-- State of the process-wide identity registry: the `EGUI_ID` atomic
counter and the `EGUI_IDS` live set. -/
structure RegState where
  counter : Nat
  ids : Finset Nat
deriving DecidableEq

/-- The condition of the `debug_assert!` at the top of `next_id`,
written in the source as `!ids.len() == usize::MAX`: Rust parses this as
`(!ids.len()) == usize::MAX`, bitwise NOT of the live-set length compared
with `usize::MAX`. -/
def nextIdAssert (ids : Finset Nat) : Bool := usizeNot ids.card == usizeMax

/-- The candidate-generation loop of `next_id`: fetch-and-increment the
counter (wrapping modulo `2 ^ 64`), retrying while the candidate is still
in the live set. The Rust loop is unbounded; it is given explicit fuel
here, and `nextIdAux_isSome` below shows fuel `ids.card + 1` always
suffices, so `nextId` computes the same result as the source loop. -/
def nextIdAux : Nat → Nat → Finset Nat → Option (Nat × Nat)
  | 0, _, _ => none
  | fuel + 1, c, ids =>
    let id := c % usizeW
    if id ∈ ids then nextIdAux fuel ((c + 1) % usizeW) ids
    else some (id, (c + 1) % usizeW)

/-- `next_id`: draw candidates from the wrapping counter until one is not
in the live set, insert it and return it. -/
def nextId (r : RegState) : Option (Nat × RegState) :=
  match nextIdAux (r.ids.card + 1) r.counter r.ids with
  | none => none
  | some (id, c) => some (id, ⟨c, insert id r.ids⟩)

/-- `N` successive allocations, returning the identifiers in call order. -/
def allocN : Nat → RegState → Option (List Nat × RegState)
  | 0, r => some ([], r)
  | n + 1, r =>
    match nextId r with
    | none => none
    | some (id, r2) =>
      match allocN n r2 with
      | none => none
      | some (out, r3) => some (id :: out, r3)

theorem usizeW_pos : 0 < usizeW := by norm_num [usizeW]

/-- A successful run of the candidate loop returns an identifier outside
the live set. -/
theorem nextIdAux_not_mem {fuel c : Nat} {ids : Finset Nat} {id c2 : Nat}
    (h : nextIdAux fuel c ids = some (id, c2)) : id ∉ ids := by
  induction fuel generalizing c with
  | zero => simp [nextIdAux] at h
  | succ fuel ih =>
    by_cases hmem : c % usizeW ∈ ids
    · rw [nextIdAux] at h
      simp only [hmem, if_pos] at h
      exact ih h
    · rw [nextIdAux] at h
      simp only [hmem, if_neg, not_false_iff, Option.some.injEq, Prod.mk.injEq] at h
      rw [← h.1]
      exact hmem

/-- If some candidate within the fuel horizon avoids the live set, the
loop succeeds. -/
theorem nextIdAux_isSome {fuel c : Nat} {ids : Finset Nat}
    (h : ∃ i < fuel, (c + i) % usizeW ∉ ids) :
    (nextIdAux fuel c ids).isSome := by
  induction fuel generalizing c with
  | zero =>
    obtain ⟨i, hi, _⟩ := h
    omega
  | succ fuel ih =>
    by_cases hmem : c % usizeW ∈ ids
    · rw [nextIdAux]
      simp only [hmem, if_pos]
      apply ih
      obtain ⟨i, hi, hnot⟩ := h
      have hi0 : i ≠ 0 := by
        intro h0
        rw [h0, Nat.add_zero] at hnot
        exact hnot hmem
      refine ⟨i - 1, by omega, ?_⟩
      have harith : ((c + 1) % usizeW + (i - 1)) % usizeW = (c + i) % usizeW := by
        rw [Nat.mod_add_mod]
        congr 1
        omega
      rw [harith]
      exact hnot
    · rw [nextIdAux]
      simp [hmem]

/-- Pigeonhole: starting anywhere, among `ids.card + 1` successive wrapped
counter values at least one lies outside `ids`, provided the live set is
smaller than the counter's range. -/
theorem exists_fresh_candidate (c : Nat) (ids : Finset Nat)
    (hcard : ids.card < usizeW) :
    ∃ i < ids.card + 1, (c + i) % usizeW ∉ ids := by
  by_contra hall
  push_neg at hall
  have hinj : Set.InjOn (fun i : Fin (ids.card + 1) => (c + i.val) % usizeW)
      (Finset.univ : Finset (Fin (ids.card + 1))) := by
    intro a _ b _ hab
    simp only at hab
    have ha : a.val < usizeW := lt_of_lt_of_le a.isLt (by omega)
    have hb : b.val < usizeW := lt_of_lt_of_le b.isLt (by omega)
    have : (c + a.val) % usizeW = (c + b.val) % usizeW := hab
    have hmod : a.val % usizeW = b.val % usizeW :=
      Nat.ModEq.add_left_cancel' c this
    have : a.val = b.val := by
      rwa [Nat.mod_eq_of_lt ha, Nat.mod_eq_of_lt hb] at hmod
    exact Fin.ext this
  have hmaps : ∀ a ∈ (Finset.univ : Finset (Fin (ids.card + 1))),
      (fun i : Fin (ids.card + 1) => (c + i.val) % usizeW) a ∈ ids := by
    intro a _
    exact hall a.val a.isLt
  have := Finset.card_le_card_of_injOn _ hmaps hinj
  simp only [Finset.card_univ, Fintype.card_fin] at this
  omega

/-- `next_id` succeeds whenever the live set has not exhausted the whole
`usize` range, and it returns a fresh identifier which it records. -/
theorem nextId_spec (r : RegState) (hcard : r.ids.card < usizeW) :
    ∃ id r2, nextId r = some (id, r2) ∧ id ∉ r.ids ∧
      r2.ids = insert id r.ids := by
  have hsome : (nextIdAux (r.ids.card + 1) r.counter r.ids).isSome :=
    nextIdAux_isSome (exists_fresh_candidate r.counter r.ids hcard)
  obtain ⟨⟨id, c⟩, heq⟩ := Option.isSome_iff_exists.mp hsome
  refine ⟨id, ⟨c, insert id r.ids⟩, ?_, nextIdAux_not_mem heq, rfl⟩
  rw [nextId, heq]

/-- `N` successive allocations succeed as long as the `usize` range is not
exhausted, and the returned identifiers are pairwise distinct, disjoint
from the initial live set, and exactly extend the live set. -/
theorem allocN_spec (n : Nat) (r : RegState) (hn : r.ids.card + n ≤ usizeW) :
    ∃ out r2, allocN n r = some (out, r2) ∧ out.Nodup ∧
      (∀ x ∈ out, x ∉ r.ids) ∧ r2.ids = r.ids ∪ out.toFinset := by
  induction n generalizing r with
  | zero =>
    exact ⟨[], r, rfl, List.nodup_nil, by simp, by simp⟩
  | succ n ih =>
    obtain ⟨id, r2, heq, hfresh, hins⟩ := nextId_spec r (by omega)
    have hcard2 : r2.ids.card + n ≤ usizeW := by
      rw [hins, Finset.card_insert_of_not_mem hfresh]
      omega
    obtain ⟨out, r3, heq3, hnodup, hdisj, hunion⟩ := ih r2 hcard2
    refine ⟨id :: out, r3, ?_, ?_, ?_, ?_⟩
    · simp only [allocN, heq, heq3]
    · refine List.nodup_cons.mpr ⟨?_, hnodup⟩
      intro hmem
      exact hdisj id hmem (by rw [hins]; exact Finset.mem_insert_self id r.ids)
    · intro x hx
      rcases List.mem_cons.mp hx with h | h
      · rw [h]; exact hfresh
      · intro hxr
        exact hdisj x h (by rw [hins]; exact Finset.mem_insert_of_mem hxr)
    · rw [hunion, hins, List.toFinset_cons]
      ext y
      simp only [Finset.mem_union, Finset.mem_insert]
      tauto

/-- A host input device, reduced to the only capability the adapter
queries: `device.has_capability(DeviceCapability::Pointer)`. -/
structure Device where
  hasPointerCap : Bool
deriving DecidableEq

/-- The host modifier state (smithay `ModifiersState`), reduced to the
bits the spec says are translated. -/
structure ModifiersState where
  shift : Bool
  ctrl : Bool
  alt : Bool
  logo : Bool
deriving DecidableEq

/-- The toolkit modifier record (egui `Modifiers`). -/
structure EModifiers where
  shift : Bool
  ctrl : Bool
  alt : Bool
  logo : Bool
deriving DecidableEq

/-- Modelled from the spec: `src/types.rs` (re-exported `convert_modifiers`)
is not in the sources. §4.2 says modifier translation maps the host
modifier bit-set to the toolkit's modifier record field-for-field and is
total (no failure mode). -/
def convert_modifiers (m : ModifiersState) : EModifiers :=
  ⟨m.shift, m.ctrl, m.alt, m.logo⟩

/-- Modelled from the spec: `src/types.rs` (re-exported `convert_key`) is
not in the sources. §4.2 says key translation iterates the raw symbols in
the order supplied by the host and returns the first that has a known
mapping, or none if all are unmapped. The key table itself is the
`keymap` parameter; raw keysyms and toolkit keys are numbered. -/
def convert_key (keymap : Nat → Option Nat) (raw_syms : List Nat) : Option Nat :=
  raw_syms.findSome? keymap

/-- The host mouse-button enumeration (smithay `MouseButton`). -/
inductive MouseButton where
  | left
  | middle
  | right
  | other (code : Nat)
deriving DecidableEq

/-- The toolkit pointer-button enumeration (egui `PointerButton`). -/
inductive PButton where
  | primary
  | secondary
  | middle
deriving DecidableEq

/-- Modelled from the spec: `src/types.rs` (re-exported `convert_button`)
is not in the sources. §4.2 says button translation maps the host
mouse-button enumeration to the toolkit's primary/secondary/middle and
maps unknown buttons to "no event". -/
def convert_button : MouseButton → Option PButton
  | .left => some .primary
  | .right => some .secondary
  | .middle => some .middle
  | .other _ => none

/-- The toolkit events the adapter synthesizes (the inhabited fragment of
egui `Event`). Pointer positions originate from `i32` logical
coordinates; scroll deltas from `f64` amounts. -/
inductive EguiEvent where
  | key (key : Nat) (pressed : Bool) (modifiers : EModifiers)
  | pointerMoved (x y : Int)
  | pointerButton (x y : Int) (button : PButton) (pressed : Bool) (modifiers : EModifiers)
  | scroll (x y : ℚ)
  | pointerGone
deriving DecidableEq

/-- Per-surface adapter state (`EguiState`); the opaque toolkit context
`ctx` is omitted (no claim inspects it). `pointers` is a `usize`; its
arithmetic wraps modulo `2 ^ 64` (release-build semantics). -/
structure EguiState where
  id : Nat
  pointers : Nat
  lastX : Int
  lastY : Int
  events : List EguiEvent
deriving DecidableEq

/-- `EguiState::new`, with the identifier drawn from `next_id` supplied
as a parameter. -/
def EguiState.new (id : Nat) : EguiState :=
  { id := id, pointers := 0, lastX := 0, lastY := 0, events := [] }

/-- `EguiState::handle_device_added`. -/
def EguiState.handle_device_added (s : EguiState) (device : Device) : EguiState :=
  if device.hasPointerCap then
    { s with pointers := (s.pointers + 1) % usizeW }
  else s

/-- `EguiState::handle_device_removed`: the decrement happens only for
pointer-capable devices, but the zero check and the `PointerGone` push
are outside that conditional. -/
def EguiState.handle_device_removed (s : EguiState) (device : Device) : EguiState :=
  let s1 := if device.hasPointerCap then
    { s with pointers := (s.pointers + (usizeW - 1)) % usizeW }
  else s
  if s1.pointers = 0 then
    { s1 with events := s1.events ++ [EguiEvent.pointerGone] }
  else s1

/-- `EguiState::handle_keyboard`: push a key event only when
`convert_key` resolves the raw symbols. -/
def EguiState.handle_keyboard (s : EguiState) (keymap : Nat → Option Nat)
    (raw_syms : List Nat) (pressed : Bool) (modifiers : ModifiersState) : EguiState :=
  match convert_key keymap raw_syms with
  | some key =>
    { s with events := s.events ++ [EguiEvent.key key pressed (convert_modifiers modifiers)] }
  | none => s

/-- `EguiState::handle_pointer_motion`: record the position as last
known and push a pointer-moved event there. -/
def EguiState.handle_pointer_motion (s : EguiState) (x y : Int) : EguiState :=
  { s with lastX := x, lastY := y,
           events := s.events ++ [EguiEvent.pointerMoved x y] }

/-- `EguiState::handle_pointer_button`: when `convert_button` resolves,
push a pointer-button event at the last recorded pointer position. -/
def EguiState.handle_pointer_button (s : EguiState) (button : MouseButton)
    (pressed : Bool) (modifiers : ModifiersState) : EguiState :=
  match convert_button button with
  | some b =>
    { s with events := s.events ++
        [EguiEvent.pointerButton s.lastX s.lastY b pressed (convert_modifiers modifiers)] }
  | none => s

/-- `EguiState::handle_pointer_axis`: push a scroll event
unconditionally. -/
def EguiState.handle_pointer_axis (s : EguiState) (x_amount y_amount : ℚ) : EguiState :=
  { s with events := s.events ++ [EguiEvent.scroll x_amount y_amount] }

/-- `f64::round`: round half away from zero, as used by smithay's
`to_i32_round`. -/
def f64round (q : ℚ) : Int :=
  if 0 ≤ q then ⌊q + 1 / 2⌋ else -⌊-q + 1 / 2⌋

/-- A rectangle in host logical coordinates
(smithay `Rectangle<i32, Logical>`: location plus extent). -/
structure LRect where
  x : Int
  y : Int
  w : Int
  h : Int
deriving DecidableEq

/-- An axis-aligned rectangle over integers, used for the toolkit screen
rectangle (egui `Rect` built from integral physical coordinates). -/
structure IRect where
  minX : Int
  minY : Int
  maxX : Int
  maxY : Int
deriving DecidableEq

/-- A rectangle over `ℚ`, used for the toolkit-reported occupied area. -/
structure QRect where
  minX : ℚ
  minY : ℚ
  maxX : ℚ
  maxY : ℚ
deriving DecidableEq

/-- The egui `RawInput` snapshot built by `run` (the fields the source
sets; the empty hovered/dropped file lists are omitted). -/
structure RawInput where
  screenRect : Option IRect
  pixelsPerPoint : Option ℚ
  time : Option ℚ
  predictedDt : ℚ
  modifiers : EModifiers
  events : List EguiEvent
deriving DecidableEq

/-- A rendered frame (`EguiFrame`); the cloned context handle, toolkit
output and tessellated mesh are opaque and omitted. `area` is the
toolkit-reported `used_rect`. -/
structure EguiFrame where
  state_id : Nat
  scale : ℚ
  area : QRect
  sizeW : Int
  sizeH : Int
deriving DecidableEq

/-- `EguiState::run`: convert the requested area to physical pixels
(multiply by the scale, round each coordinate to an integer), build the
`RawInput` with the drained event queue, and produce the frame. The
toolkit pass itself is external: its elapsed-time reading and reported
`used_rect` are parameters. -/
def EguiState.run (s : EguiState) (area : LRect) (sizeW sizeH : Int)
    (scale : ℚ) (elapsed : ℚ) (modifiers : ModifiersState)
    (usedRect : QRect) : RawInput × EguiFrame × EguiState :=
  let locX := f64round ((area.x : ℚ) * scale)
  let locY := f64round ((area.y : ℚ) * scale)
  let sw := f64round ((area.w : ℚ) * scale)
  let sh := f64round ((area.h : ℚ) * scale)
  let input : RawInput :=
    { screenRect := some ⟨locX, locY, locX + sw, locY + sh⟩
      pixelsPerPoint := some scale
      time := some elapsed
      predictedDt := 1 / 60
      modifiers := convert_modifiers modifiers
      events := s.events }
  (input,
   { state_id := s.id, scale := scale, area := usedRect,
     sizeW := sizeW, sizeH := sizeH },
   { s with events := [] })

/-- `i32::MAX`. -/
def i32Max : Int := 2 ^ 31 - 1

/-- `RenderElement::accumulated_damage` for `EguiFrame`: one full-extent
rectangle, whatever the frame. -/
def EguiFrame.accumulated_damage (_frame : EguiFrame) : List LRect :=
  [⟨0, 0, i32Max, i32Max⟩]

/-- `RenderElement::draw` for `EguiFrame`: run the unsafe painter
(`EguiFrame::draw`, a GL interaction whose outcome is the `inner`
parameter); on error, log it; return `Ok(())` either way. The second
component collects the log lines emitted. -/
def EguiFrame.render_element_draw (_frame : EguiFrame)
    (inner : Except String Unit) : Except String Unit × List String :=
  match inner with
  | .error err => (.ok (), ["egui rendering error: " ++ err])
  | .ok _ => (.ok (), [])

/-- One host call into the adapter's input-handling interface. -/
inductive InputCall where
  | keyboard (raw_syms : List Nat) (pressed : Bool) (modifiers : ModifiersState)
  | pointerMotion (x y : Int)
  | pointerButton (button : MouseButton) (pressed : Bool) (modifiers : ModifiersState)
  | pointerAxis (x y : ℚ)
  | deviceAdded (device : Device)
  | deviceRemoved (device : Device)
deriving DecidableEq

/-- Dispatch one host call to the corresponding handler. -/
def applyCall (keymap : Nat → Option Nat) (s : EguiState) : InputCall → EguiState
  | .keyboard raw_syms pressed modifiers => s.handle_keyboard keymap raw_syms pressed modifiers
  | .pointerMotion x y => s.handle_pointer_motion x y
  | .pointerButton button pressed modifiers => s.handle_pointer_button button pressed modifiers
  | .pointerAxis x y => s.handle_pointer_axis x y
  | .deviceAdded device => s.handle_device_added device
  | .deviceRemoved device => s.handle_device_removed device

/-- Apply a sequence of host calls in order. -/
def applyCalls (keymap : Nat → Option Nat) (s : EguiState) (calls : List InputCall) : EguiState :=
  calls.foldl (applyCall keymap) s

/-- The events a single handler call appends to the pending queue. -/
def callEvents (keymap : Nat → Option Nat) (s : EguiState) (c : InputCall) : List EguiEvent :=
  (applyCall keymap s c).events.drop s.events.length

/-- The events a sequence of handler calls appends, concatenated in call
order. -/
def appendedEvents (keymap : Nat → Option Nat) : EguiState → List InputCall → List EguiEvent
  | _, [] => []
  | s, c :: calls =>
    callEvents keymap s c ++ appendedEvents keymap (applyCall keymap s c) calls

/-- Every handler leaves the existing queue as a prefix and appends its
own events after it. -/
theorem applyCall_events (keymap : Nat → Option Nat) (s : EguiState) (c : InputCall) :
    (applyCall keymap s c).events = s.events ++ callEvents keymap s c := by
  cases c with
  | keyboard raw_syms pressed modifiers =>
    simp only [applyCall, callEvents, EguiState.handle_keyboard]
    cases convert_key keymap raw_syms <;> simp
  | pointerMotion x y =>
    simp only [applyCall, callEvents, EguiState.handle_pointer_motion]
    simp
  | pointerButton button pressed modifiers =>
    simp only [applyCall, callEvents, EguiState.handle_pointer_button]
    cases convert_button button <;> simp
  | pointerAxis x y =>
    simp only [applyCall, callEvents, EguiState.handle_pointer_axis]
    simp
  | deviceAdded device =>
    simp only [applyCall, callEvents, EguiState.handle_device_added]
    cases device.hasPointerCap <;> simp
  | deviceRemoved device =>
    simp only [applyCall, callEvents, EguiState.handle_device_removed]
    cases h : device.hasPointerCap <;> simp <;> split <;> simp

/-- After a sequence of handler calls the queue is the original queue
followed by the appended events, in call order. -/
theorem applyCalls_events (keymap : Nat → Option Nat) (s : EguiState)
    (calls : List InputCall) :
    (applyCalls keymap s calls).events = s.events ++ appendedEvents keymap s calls := by
  induction calls generalizing s with
  | nil => simp [applyCalls, appendedEvents]
  | cons c calls ih =>
    simp only [applyCalls, List.foldl_cons, appendedEvents]
    rw [← List.append_assoc, ← applyCall_events keymap s c]
    exact ih (applyCall keymap s c)

/-- C1: the claim says a removal call for a device without pointer
capability queues no event. The code checks `self.pointers == 0` outside
the capability conditional, so on a fresh state (pointer count zero)
removing a non-pointer device queues a `PointerGone` event, contradicting
the claim; the claim's two add/remove scenarios do behave as stated
(one device added then removed ends in a single `PointerGone`; two added
and one removed queues nothing). -/
theorem spec_c1_pointer_gone :
    ((EguiState.new 0).handle_device_removed ⟨false⟩).events = [EguiEvent.pointerGone] ∧
    (((EguiState.new 0).handle_device_added ⟨true⟩).handle_device_removed ⟨true⟩).events
      = [EguiEvent.pointerGone] ∧
    ((((EguiState.new 0).handle_device_added ⟨true⟩).handle_device_added
        ⟨true⟩).handle_device_removed ⟨true⟩).events = [] := by
  refine ⟨?_, ?_, ?_⟩ <;> decide

/-- C2: any number of allocations that does not exhaust the `usize`
range succeeds; the returned identifiers are pairwise distinct, disjoint
from the initial live set, extend the live set exactly, and, for each
call, the identifier it returns is outside the registry's live set as it
stands at the time of that call — even when the counter wraps. -/
theorem spec_c2_identifier_uniqueness (n : Nat) (r : RegState)
    (hn : r.ids.card + n ≤ usizeW) :
    ∃ out r2, allocN n r = some (out, r2) ∧ out.Nodup ∧
      (∀ x ∈ out, x ∉ r.ids) ∧ r2.ids = r.ids ∪ out.toFinset ∧
      ∀ k, k < n → ∃ pre rk id rnext suf,
        allocN k r = some (pre, rk) ∧ nextId rk = some (id, rnext) ∧
        out = pre ++ id :: suf ∧ id ∉ rk.ids := by
  induction n generalizing r with
  | zero =>
    exact ⟨[], r, rfl, List.nodup_nil, by simp, by simp, by omega⟩
  | succ n ih =>
    obtain ⟨id, r2, heq, hfresh, hins⟩ := nextId_spec r (by omega)
    have hcard2 : r2.ids.card + n ≤ usizeW := by
      rw [hins, Finset.card_insert_of_not_mem hfresh]
      omega
    obtain ⟨out, r3, heq3, hnodup, hdisj, hunion, hcalls⟩ := ih r2 hcard2
    refine ⟨id :: out, r3, ?_, ?_, ?_, ?_, ?_⟩
    · simp only [allocN, heq, heq3]
    · refine List.nodup_cons.mpr ⟨?_, hnodup⟩
      intro hmem
      exact hdisj id hmem (by rw [hins]; exact Finset.mem_insert_self id r.ids)
    · intro x hx
      rcases List.mem_cons.mp hx with h | h
      · rw [h]; exact hfresh
      · intro hxr
        exact hdisj x h (by rw [hins]; exact Finset.mem_insert_of_mem hxr)
    · rw [hunion, hins, List.toFinset_cons]
      ext y
      simp only [Finset.mem_union, Finset.mem_insert]
      tauto
    · intro k hk
      cases k with
      | zero =>
        exact ⟨[], r, id, r2, out, rfl, heq, rfl, hfresh⟩
      | succ j =>
        obtain ⟨pre, rk, id2, rnext, suf, hpre, hnext, hout, hfresh2⟩ :=
          hcalls j (by omega)
        refine ⟨id :: pre, rk, id2, rnext, suf, ?_, hnext, by rw [hout]; rfl, hfresh2⟩
        simp only [allocN, heq, hpre]

/-- C2 witness: three allocations from the initial registry state return
three distinct fresh identifiers. -/
theorem spec_c2_identifier_uniqueness_witness :
    (⟨0, ∅⟩ : RegState).ids.card + 3 ≤ usizeW ∧
    ∃ out r2, allocN 3 ⟨0, ∅⟩ = some (out, r2) ∧ out.Nodup ∧
      (∀ x ∈ out, x ∉ (⟨0, ∅⟩ : RegState).ids) ∧
      r2.ids = (⟨0, ∅⟩ : RegState).ids ∪ out.toFinset ∧
      ∀ k, k < 3 → ∃ pre rk id rnext suf,
        allocN k ⟨0, ∅⟩ = some (pre, rk) ∧ nextId rk = some (id, rnext) ∧
        out = pre ++ id :: suf ∧ id ∉ rk.ids :=
  ⟨by decide, spec_c2_identifier_uniqueness 3 ⟨0, ∅⟩ (by decide)⟩

/-- C6: the claim says the debug assertion in `next_id` holds on every
reachable registry state. The asserted condition `!ids.len() ==
usize::MAX` is bitwise NOT of the live count compared with `usize::MAX`,
true only when the count is zero: it holds before the first allocation,
but after one allocation (a reachable state, shown by evaluating
`nextId` from the initial state) the live set is `{0}` and the condition
is false, so the assertion fails on the second allocation. -/
theorem spec_c6_assert_fails :
    nextIdAssert (∅ : Finset Nat) = true ∧
    nextId ⟨0, ∅⟩ = some (0, ⟨1, insert 0 ∅⟩) ∧
    nextIdAssert (insert 0 (∅ : Finset Nat)) = false := by
  refine ⟨?_, ?_, ?_⟩ <;> decide

/-- C3: for any sequence of input-handling calls on a fresh state
followed by one `run`, the `events` field of the `RawInput` handed to
the UI pass is exactly the events the handler calls appended, in call
order, and the pending queue is empty immediately after `run` returns. -/
theorem spec_c3_event_ordering (keymap : Nat → Option Nat) (id : Nat)
    (calls : List InputCall) (area : LRect) (sizeW sizeH : Int)
    (scale elapsed : ℚ) (modifiers : ModifiersState) (usedRect : QRect) :
    ((applyCalls keymap (EguiState.new id) calls).run area sizeW sizeH
        scale elapsed modifiers usedRect).1.events
      = appendedEvents keymap (EguiState.new id) calls ∧
    ((applyCalls keymap (EguiState.new id) calls).run area sizeW sizeH
        scale elapsed modifiers usedRect).2.2.events = [] := by
  constructor
  · have h := applyCalls_events keymap (EguiState.new id) calls
    simp only [EguiState.new, List.nil_append] at h
    exact h
  · rfl

/-- C4: a pointer-button event is queued at the last recorded pointer
position: motion to `(x, y)` followed by a mappable button press appends
a `PointerMoved` then a `PointerButton` event at that same position,
though the button call supplies no position. -/
theorem spec_c4_button_position_backfill (s : EguiState) (x y : Int)
    (button : MouseButton) (b : PButton) (pressed : Bool)
    (modifiers : ModifiersState) (h : convert_button button = some b) :
    ((s.handle_pointer_motion x y).handle_pointer_button button pressed
        modifiers).events
      = s.events ++ [EguiEvent.pointerMoved x y,
          EguiEvent.pointerButton x y b pressed (convert_modifiers modifiers)] := by
  simp [EguiState.handle_pointer_motion, EguiState.handle_pointer_button, h]

/-- C4 witness: motion to `(10, 20)` then a left-button press queues the
button event at `(10, 20)`. -/
theorem spec_c4_button_position_backfill_witness :
    convert_button MouseButton.left = some PButton.primary ∧
    (((EguiState.new 0).handle_pointer_motion 10 20).handle_pointer_button
        MouseButton.left true ⟨false, false, false, false⟩).events
      = (EguiState.new 0).events ++ [EguiEvent.pointerMoved 10 20,
          EguiEvent.pointerButton 10 20 PButton.primary true
            (convert_modifiers ⟨false, false, false, false⟩)] :=
  ⟨rfl, spec_c4_button_position_backfill (EguiState.new 0) 10 20
    MouseButton.left PButton.primary true ⟨false, false, false, false⟩ rfl⟩

/-- C5: unmapped input is inert: when `convert_key` resolves to none the
keyboard handler leaves the state (hence the queue) unchanged, and when
`convert_button` resolves to none the button handler does too; neither
returns an error. -/
theorem spec_c5_unmapped_input_inert (s : EguiState)
    (keymap : Nat → Option Nat) (raw_syms : List Nat) (pressed : Bool)
    (modifiers : ModifiersState) (button : MouseButton) (pressed2 : Bool)
    (modifiers2 : ModifiersState)
    (hk : convert_key keymap raw_syms = none)
    (hb : convert_button button = none) :
    s.handle_keyboard keymap raw_syms pressed modifiers = s ∧
    s.handle_pointer_button button pressed2 modifiers2 = s := by
  constructor
  · simp [EguiState.handle_keyboard, hk]
  · simp [EguiState.handle_pointer_button, hb]

/-- C5 witness: an empty key table and an unknown extra button leave a
fresh state untouched. -/
theorem spec_c5_unmapped_input_inert_witness :
    convert_key (fun _ => none) [5] = none ∧
    convert_button (MouseButton.other 4) = none ∧
    ((EguiState.new 0).handle_keyboard (fun _ => none) [5] true
        ⟨false, false, false, false⟩ = EguiState.new 0 ∧
     (EguiState.new 0).handle_pointer_button (MouseButton.other 4) true
        ⟨false, false, false, false⟩ = EguiState.new 0) :=
  ⟨rfl, rfl, spec_c5_unmapped_input_inert (EguiState.new 0) (fun _ => none)
    [5] true ⟨false, false, false, false⟩ (MouseButton.other 4) true
    ⟨false, false, false, false⟩ rfl rfl⟩

/-- C7: the render-element draw entry point always returns `Ok`,
whatever the inner painting operation did; and when the inner painting
fails, the error is logged. -/
theorem spec_c7_draw_never_fails (frame : EguiFrame)
    (inner : Except String Unit) (err : String) :
    (frame.render_element_draw inner).1 = Except.ok () ∧
    (frame.render_element_draw (Except.error err)).2
      = ["egui rendering error: " ++ err] := by
  constructor
  · cases inner <;> rfl
  · rfl

/-- C8: `run` converts the requested logical area to physical pixels by
multiplying each coordinate by the scale and rounding to an integer, and
passes the result as the screen rectangle of the toolkit input; in
particular area `(0, 0, 100, 100)` at scale `2` yields min `(0, 0)` and
max `(200, 200)`. -/
theorem spec_c8_area_conversion (s : EguiState) (area : LRect)
    (sizeW sizeH : Int) (scale elapsed : ℚ) (modifiers : ModifiersState)
    (usedRect : QRect) :
    (s.run area sizeW sizeH scale elapsed modifiers usedRect).1.screenRect
      = some ⟨f64round ((area.x : ℚ) * scale), f64round ((area.y : ℚ) * scale),
          f64round ((area.x : ℚ) * scale) + f64round ((area.w : ℚ) * scale),
          f64round ((area.y : ℚ) * scale) + f64round ((area.h : ℚ) * scale)⟩ ∧
    (s.run ⟨0, 0, 100, 100⟩ sizeW sizeH 2 elapsed modifiers
        usedRect).1.screenRect = some ⟨0, 0, 200, 200⟩ := by
  refine ⟨rfl, ?_⟩
  have h0 : f64round (0 : ℚ) = 0 := by
    rw [f64round, if_pos le_rfl, Int.floor_eq_iff]
    constructor <;> norm_num
  have h200 : f64round (200 : ℚ) = 200 := by
    rw [f64round, if_pos (by norm_num), Int.floor_eq_iff]
    constructor <;> norm_num
  simp [EguiState.run, h0, h200]
  norm_num [h200]

/-- C9: on a freshly constructed state, a mappable button press before
any motion call queues a pointer-button event at `(0, 0)`, because the
constructor initializes the last pointer position to `(0, 0)`. -/
theorem spec_c9_initial_button_position (id : Nat) (button : MouseButton)
    (b : PButton) (pressed : Bool) (modifiers : ModifiersState)
    (h : convert_button button = some b) :
    ((EguiState.new id).handle_pointer_button button pressed modifiers).events
      = [EguiEvent.pointerButton 0 0 b pressed (convert_modifiers modifiers)] := by
  simp [EguiState.new, EguiState.handle_pointer_button, h]

/-- C9 witness: a left-button press on a fresh state queues the button
event at `(0, 0)`. -/
theorem spec_c9_initial_button_position_witness :
    convert_button MouseButton.left = some PButton.primary ∧
    ((EguiState.new 0).handle_pointer_button MouseButton.left true
        ⟨false, false, false, false⟩).events
      = [EguiEvent.pointerButton 0 0 PButton.primary true
          (convert_modifiers ⟨false, false, false, false⟩)] :=
  ⟨rfl, spec_c9_initial_button_position 0 MouseButton.left PButton.primary
    true ⟨false, false, false, false⟩ rfl⟩

/-- C10: for every frame, the render-element damage report is exactly
one rectangle at `(0, 0)` whose width and height are the maximal
representable `i32` extent. -/
theorem spec_c10_damage_always_full (frame : EguiFrame) :
    frame.accumulated_damage
      = [{ x := 0, y := 0, w := 2 ^ 31 - 1, h := 2 ^ 31 - 1 }] := by
  simp [EguiFrame.accumulated_damage, i32Max]

end SmithayEgui
